import Mathlib

/-!
Verification of the pseudo-language analysis engine (the `vscode-languageserver`
based server in the repository's unnamed server source).  The engine consists of
a keyword catalog, a completion provider (`onCompletion`), a completion resolve
provider (`onCompletionResolve`) and a diagnostic scanner
(`validateTextDocument`).  All of these are translated here as executable
Lean functions over `String`/`List Char`, with JavaScript regular expressions
replaced by equivalent deterministic character scans (each replacement is
justified next to its definition).
-/

namespace Pseudo

/-- JavaScript whitespace: the character class matched by `\s`
(space, tab, line feed, vertical tab, form feed, carriage return,
and the Unicode space characters). -/
def isJsWs (c : Char) : Bool :=
  c == ' ' || c == '\t' || c == '\n' || c == '\x0b' || c == '\x0c' || c == '\r' ||
  c == '\u00A0' || c == '\u1680' || ('\u2000' ≤ c && c ≤ '\u200A') ||
  c == '\u2028' || c == '\u2029' || c == '\u202F' || c == '\u205F' || c == '\u3000' ||
  c == '\uFEFF'

/-- JavaScript word character: the class matched by `\w`, i.e. `[A-Za-z0-9_]`. -/
def isWordChar (c : Char) : Bool :=
  ('a' ≤ c && c ≤ 'z') || ('A' ≤ c && c ≤ 'Z') || ('0' ≤ c && c ≤ '9') || c == '_'

/-- The keyword catalog: the categories of the `KEYWORDS` constant. -/
structure Keywords where
  declarations : List String
  types : List String
  modifiers : List String
  actions : List String
  control : List String
  properties : List String

/-- The `KEYWORDS` constant of the server source, verbatim. -/
def KEYWORDS : Keywords :=
  { declarations :=
      ["app", "domain", "feature", "model", "component", "page", "request",
       "response", "route", "auth", "guard", "form", "service", "repository",
       "config", "event", "state"]
    types := ["string", "number", "boolean", "date", "email", "url", "uuid", "array", "object"]
    modifiers := ["required", "optional", "unique", "indexed", "default"]
    actions :=
      ["create", "update", "delete", "query", "list", "show", "hide", "toggle",
       "validate", "redirect", "authenticate", "authorize", "transform",
       "filter", "sort", "paginate"]
    control := ["if", "else", "when", "for each", "try", "catch", "return"]
    properties :=
      ["path", "guard", "description", "language", "framework", "database",
       "styling", "components", "authentication"] }

/-- The subset of LSP `CompletionItemKind` values the server uses
(`Keyword` = 14, `Property` = 10, `Method` = 2, `TypeParameter` = 25). -/
inductive CompletionItemKind where
  | Keyword
  | Property
  | Method
  | TypeParameter
deriving DecidableEq, Repr

/-- An LSP completion item, restricted to the fields the server populates.
A field the JavaScript code leaves undefined is `none` here. -/
structure CompletionItem where
  label : String
  kind : CompletionItemKind
  detail : String
  insertText : Option String := none
  insertTextFormat : Option Nat := none
  documentation : Option String := none
deriving DecidableEq, Repr

/-- Zero-based LSP position, as received by `onCompletion`. -/
structure Position where
  line : Nat
  character : Nat
deriving DecidableEq, Repr

/-- `text.split('\n')` on the character list: split at every `'\n'`,
always producing at least one (possibly empty) piece. -/
def splitOnNl : List Char → List (List Char)
  | [] => [[]]
  | c :: rest =>
    if c = '\n' then [] :: splitOnNl rest
    else
      match splitOnNl rest with
      | [] => [[c]]
      | l :: ls => (c :: l) :: ls

/-- `text.split('\n')` as a list of strings. -/
def jsSplitLines (s : String) : List String :=
  (splitOnNl s.data).map String.mk

/-- The document store: the text tracked for each open uri
(`documents.get(uri)` is a lookup in this association list). -/
def lookupDoc (docs : List (String × String)) (uri : String) : Option String :=
  (docs.find? (fun p => p.1 == uri)).map (fun p => p.2)

/-- The test `/^\s*$/.test(beforeCursor)`: every character is whitespace. -/
def lineStartTest (s : String) : Bool :=
  s.data.all isJsWs

/-- The test `/:\s*$/.test(beforeCursor)`.  The pattern is anchored only at the
end, so it succeeds exactly when the string ends in a colon followed by
whitespace only, i.e. when after discarding trailing whitespace the last
character is a colon. -/
def afterColonTest (s : String) : Bool :=
  (s.data.reverse.dropWhile isJsWs).head? == some ':'

/-- The test `/:\s*\w*$/.test(beforeCursor)`: the string ends in a colon,
then optional whitespace, then an optional run of word characters.  Since a
colon is neither a whitespace nor a word character, this holds exactly when
discarding the maximal trailing run of word characters and then the maximal
trailing run of whitespace leaves a colon as the last character. -/
def typePositionTest (s : String) : Bool :=
  ((s.data.reverse.dropWhile isWordChar).dropWhile isJsWs).head? == some ':'

/-- A declaration completion item, as pushed for each declarations keyword:
snippet insert text `<keyword> "$\x7b1:Name\x7d":`, with `app` using the
placeholder `ProjectName` instead of `Name`. -/
def declCandidate (kw : String) : CompletionItem :=
  { label := kw
    kind := CompletionItemKind.Keyword
    detail := kw ++ " declaration"
    insertText :=
      some (if kw = "app" then kw ++ " \"$\x7b1:ProjectName\x7d\":"
            else kw ++ " \"$\x7b1:Name\x7d\":")
    insertTextFormat := some 2 }

/-- A property completion item (no insert text is set by the code). -/
def propertyCandidate (p : String) : CompletionItem :=
  { label := p, kind := CompletionItemKind.Property, detail := p ++ " property" }

/-- An action completion item (no insert text is set by the code). -/
def actionCandidate (a : String) : CompletionItem :=
  { label := a, kind := CompletionItemKind.Method, detail := a ++ " action" }

/-- A type completion item (no insert text is set by the code). -/
def typeCandidate (t : String) : CompletionItem :=
  { label := t, kind := CompletionItemKind.TypeParameter, detail := t ++ " type" }

/-- A modifier completion item (no insert text is set by the code). -/
def modifierCandidate (m : String) : CompletionItem :=
  { label := m, kind := CompletionItemKind.Keyword, detail := m ++ " modifier" }

/-- LSP semantics of insertion: when a completion item carries no explicit
`insertText`, the editor inserts the item's `label`. -/
def insertedText (item : CompletionItem) : String :=
  item.insertText.getD item.label

/-- The body of `onCompletion` after the prefix `beforeCursor` has been
computed: four independent `if` blocks pushing candidates in source order
(declarations, then properties and actions, then types, then modifiers). -/
def completionsFor (beforeCursor : String) : List CompletionItem :=
  (if lineStartTest beforeCursor then KEYWORDS.declarations.map declCandidate else []) ++
  (if afterColonTest beforeCursor then
      KEYWORDS.properties.map propertyCandidate ++ KEYWORDS.actions.map actionCandidate
    else []) ++
  (if typePositionTest beforeCursor then KEYWORDS.types.map typeCandidate else []) ++
  KEYWORDS.modifiers.map modifierCandidate

/-- The `onCompletion` handler.  `some items` is a normal return; `none`
models the unhandled JavaScript `TypeError` thrown when
`text.split('\n')[position.line]` is `undefined` (line index out of range) and
`.substring` is called on it.  `substring(0, character)` clamps a character
offset larger than the line length, which is `List.take`'s behaviour. -/
def onCompletion (docs : List (String × String)) (uri : String) (pos : Position) :
    Option (List CompletionItem) :=
  match lookupDoc docs uri with
  | none => some []
  | some text =>
    match (jsSplitLines text)[pos.line]? with
    | none => none
    | some lineText => some (completionsFor (String.mk (lineText.data.take pos.character)))

/-- The `onCompletionResolve` handler: adds documentation to keyword-kind
items and returns every item otherwise unchanged. -/
def onCompletionResolve (item : CompletionItem) : CompletionItem :=
  if item.kind = CompletionItemKind.Keyword then
    { item with documentation := some (item.label ++ " - A pseudolang keyword") }
  else item

/-- LSP diagnostic severity (`Error` = 1, `Warning` = 2, …). -/
inductive DiagnosticSeverity where
  | Error
  | Warning
  | Information
  | Hint
deriving DecidableEq, Repr

/-- A position inside a diagnostic range.  The character offset is an `Int`
because the code computes it with `String.prototype.indexOf`, which can in
principle return `-1`. -/
structure DiagPosition where
  line : Nat
  character : Int
deriving DecidableEq, Repr

/-- A diagnostic range (the source calls the second field `end`). -/
structure DiagRange where
  start : DiagPosition
  stop : DiagPosition
deriving DecidableEq, Repr

/-- An LSP diagnostic as published by the scanner. -/
structure Diagnostic where
  severity : DiagnosticSeverity
  range : DiagRange
  message : String
  source : String
deriving DecidableEq, Repr

/-- `t.isPrefixOf s` on strings: JavaScript `s.startsWith(t)`. -/
def jsStartsWith (s t : String) : Bool :=
  t.data.isPrefixOf s.data

/-- Index of the first occurrence of `needle` in `hay`, if any. -/
def firstOccur : List Char → List Char → Option Nat
  | [], needle => if needle.isPrefixOf [] then some 0 else none
  | a :: t, needle =>
    if needle.isPrefixOf (a :: t) then some 0
    else (firstOccur t needle).map (fun k => k + 1)

/-- JavaScript `hay.indexOf(needle)`: index of the first occurrence,
`-1` when there is none. -/
def jsIndexOf (hay needle : String) : Int :=
  match firstOccur hay.data needle.data with
  | some k => Int.ofNat k
  | none => -1

/-- The declaration keywords in the alternation order of the scanner's
regular expression (identical to the catalog's declarations list). -/
def declKeywords : List String :=
  ["app", "domain", "feature", "model", "component", "page", "request",
   "response", "route", "auth", "guard", "form", "service", "repository",
   "config", "event", "state"]

/-- The part of the scanner's regular expression after the keyword:
`\s+([^:]+):\s*$` applied to `rest2` (the characters following the keyword),
with JavaScript backtracking semantics.  The greedy `\s+` takes the maximal
whitespace run `ws2`; the greedy `[^:]+` then captures everything up to the
first colon.  When the colon immediately follows the whitespace the engine
backtracks `\s+` by exactly one character, so the capture becomes the last
whitespace character (this needs the whitespace run to have length at least
two).  The match succeeds only when the text after the colon is whitespace
only; `[^:]+` cannot cross a colon, so no other backtracking can succeed. -/
def matchAfterKw (kw : String) (rest2 : List Char) : Option (String × String) :=
  let ws2 := rest2.takeWhile isJsWs
  let rest3 := rest2.dropWhile isJsWs
  if ws2.isEmpty then none
  else
    let pre := rest3.takeWhile (fun c => c ≠ ':')
    match rest3.drop pre.length with
    | ':' :: after =>
      if after.all isJsWs then
        if pre.isEmpty then
          match ws2.reverse with
          | c :: _ :: _ => some (kw, String.mk [c])
          | _ => none
        else some (kw, String.mk pre)
      else none
    | _ => none

/-- `line.match(/^\s*(app|domain|...|state)\s+([^:]+):\s*$/)` on the character
list: skip the maximal leading whitespace run (no keyword starts with a
whitespace character, so `\s*` cannot usefully backtrack), find the unique
keyword of the alternation that is a prefix of the rest (the keyword list is
prefix-free, so at most one alternative can match and alternation
backtracking never arises), and match the remainder with `matchAfterKw`.
Returns the two captures (keyword, name) on success. -/
def matchDeclAux (cs : List Char) : Option (String × String) :=
  let rest1 := cs.dropWhile isJsWs
  match declKeywords.find? (fun kw => kw.data.isPrefixOf rest1) with
  | none => none
  | some kw => matchAfterKw kw (rest1.drop kw.data.length)

/-- The scanner's declaration-header match on a line. -/
def matchDecl (line : String) : Option (String × String) :=
  matchDeclAux line.data

/-- The body of the scanner's per-line callback: when the line matches the
declaration-header pattern and the captured name contains a space and does
not start with a double quote, emit one warning whose range is computed with
`line.indexOf(name)`. -/
def diagnosticsForLine (lineNumber : Nat) (line : String) : List Diagnostic :=
  match matchDecl line with
  | none => []
  | some (kw, name) =>
    if name.data.contains ' ' && !(jsStartsWith name "\"") then
      [{ severity := DiagnosticSeverity.Warning
         range :=
           { start := { line := lineNumber, character := jsIndexOf line name }
             stop := { line := lineNumber,
                       character := jsIndexOf line name + Int.ofNat name.length } }
         message := "Multi-word " ++ kw ++ " names should be quoted: \"" ++ name ++ "\""
         source := "pseudo-lang" }]
    else []

/-- `validateTextDocument`: split the text into lines and run the per-line
check on every line with its index. -/
def validateTextDocument (text : String) : List Diagnostic :=
  ((jsSplitLines text).enum.map (fun p => diagnosticsForLine p.1 p.2)).flatten

/-- Following the claim's words only (not the code): the name contains an
*internal* space character, i.e. a space that survives stripping leading and
trailing spaces. -/
def specInternalSpace (s : String) : Bool :=
  ((s.data.dropWhile (fun c => c == ' ')).reverse.dropWhile (fun c => c == ' ')).contains ' '

/-! ### Helper lemmas about character scans -/

/-- Dropping while `p` holds over a list all of whose elements satisfy `p`
leaves nothing. -/
theorem dropWhile_all_nil {p : Char → Bool} {l : List Char} (h : l.all p = true) :
    l.dropWhile p = [] := by
  induction l with
  | nil => rfl
  | cons a t ih =>
    simp only [List.all_cons, Bool.and_eq_true] at h
    rw [List.dropWhile_cons_of_pos h.1]
    exact ih h.2

/-- Dropping the length of the left part of an append plus `n` drops `n`
from the right part. -/
theorem drop_append_left (l1 l2 : List Char) (n : Nat) :
    (l1 ++ l2).drop (l1.length + n) = l2.drop n := by
  induction l1 with
  | nil => simp
  | cons a t ih => simp [Nat.succ_add, ih]

/-- A list is a boolean prefix of itself followed by anything. -/
theorem isPrefixOf_append_self (l t : List Char) : l.isPrefixOf (l ++ t) = true :=
  List.isPrefixOf_iff_prefix.mpr (List.prefix_append l t)

/-- If `firstOccur` returns an index, the needle occurs there and at no
earlier index. -/
theorem firstOccur_some :
    ∀ (hay needle : List Char) (k : Nat), firstOccur hay needle = some k →
      needle.isPrefixOf (hay.drop k) = true ∧
        ∀ j, j < k → needle.isPrefixOf (hay.drop j) = false
  | [], needle, k, h => by
    rw [firstOccur] at h
    by_cases hp : needle.isPrefixOf [] = true
    · rw [if_pos hp] at h
      have hk : k = 0 := (Option.some.inj h).symm
      subst hk
      exact ⟨by simpa using hp, fun j hj => absurd hj (Nat.not_lt_zero j)⟩
    · rw [if_neg hp] at h
      exact absurd h (by simp)
  | a :: t, needle, k, h => by
    rw [firstOccur] at h
    by_cases hp : needle.isPrefixOf (a :: t) = true
    · rw [if_pos hp] at h
      have hk : k = 0 := (Option.some.inj h).symm
      subst hk
      exact ⟨by simpa using hp, fun j hj => absurd hj (Nat.not_lt_zero j)⟩
    · rw [if_neg hp] at h
      obtain ⟨k', hk', rfl⟩ : ∃ k', firstOccur t needle = some k' ∧ k' + 1 = k := by
        cases hfo : firstOccur t needle with
        | none => rw [hfo] at h; exact absurd h (by simp)
        | some k' => rw [hfo] at h; exact ⟨k', rfl, Option.some.inj h⟩
      have ih := firstOccur_some t needle k' hk'
      refine ⟨by simpa using ih.1, ?_⟩
      intro j hj
      cases j with
      | zero =>
        simp only [List.drop_zero]
        exact Bool.not_eq_true _ ▸ hp
      | succ j' =>
        simpa using ih.2 j' (Nat.lt_of_succ_lt_succ hj)

/-- If the needle occurs somewhere, `firstOccur` finds an occurrence. -/
theorem firstOccur_of_occurs :
    ∀ (hay needle : List Char) (k : Nat), needle.isPrefixOf (hay.drop k) = true →
      ∃ j, firstOccur hay needle = some j
  | [], needle, k, h => by
    simp only [List.drop_nil] at h
    refine ⟨0, ?_⟩
    rw [firstOccur, if_pos ?_]
    obtain ⟨t, ht⟩ := List.isPrefixOf_iff_prefix.mp h
    have hnil : needle = [] := by
      cases needle with
      | nil => rfl
      | cons b bs => exact absurd ht (by simp)
    subst hnil
    simp [List.isPrefixOf]
  | a :: t, needle, k, h => by
    by_cases hp : needle.isPrefixOf (a :: t) = true
    · exact ⟨0, by rw [firstOccur, if_pos hp]⟩
    · cases k with
      | zero => exact absurd (by simpa using h) hp
      | succ k' =>
        obtain ⟨j, hj⟩ := firstOccur_of_occurs t needle k' (by simpa using h)
        refine ⟨j + 1, ?_⟩
        rw [firstOccur, if_neg hp, hj]
        rfl

/-- A prefix ending in a colon followed by whitespace passes the
`/:\s*$/` test. -/
theorem afterColonTest_append_ws (a w : String) (hw : w.data.all isJsWs = true) :
    afterColonTest (a ++ ":" ++ w) = true := by
  have hcolon : (":" : String).data = [':'] := rfl
  have hpos : ∀ x ∈ w.data.reverse, isJsWs x := fun x hx =>
    List.all_eq_true.mp hw x (List.mem_reverse.mp hx)
  unfold afterColonTest
  rw [String.data_append, String.data_append, hcolon, List.reverse_append,
    List.reverse_append, List.dropWhile_append_of_pos hpos,
    show ([':'] : List Char).reverse = [':'] from rfl, List.singleton_append,
    List.dropWhile_cons_of_neg (by decide)]
  rfl

/-- A prefix ending in a colon followed by whitespace passes the
`/:\s*\w*$/` test as well (the `\w*` part matches the empty word). -/
theorem typePositionTest_append_ws (a w : String) (hw : w.data.all isJsWs = true) :
    typePositionTest (a ++ ":" ++ w) = true := by
  have hcolon : (":" : String).data = [':'] := rfl
  unfold typePositionTest
  rw [String.data_append, String.data_append, hcolon, List.reverse_append,
    List.reverse_append, show ([':'] : List Char).reverse = [':'] from rfl,
    List.singleton_append, List.dropWhile_append]
  by_cases hemp : (w.data.reverse.dropWhile isWordChar).isEmpty = true
  · rw [if_pos hemp, List.dropWhile_cons_of_neg (by decide),
      List.dropWhile_cons_of_neg (by decide)]
    rfl
  · rw [if_neg hemp]
    have hws : ∀ x ∈ w.data.reverse.dropWhile isWordChar, isJsWs x := fun x hx =>
      List.all_eq_true.mp hw x
        (List.mem_reverse.mp ((List.dropWhile_sublist isWordChar).subset hx))
    rw [List.dropWhile_append_of_pos hws, List.dropWhile_cons_of_neg (by decide)]
    rfl

/-- A prefix containing a colon fails the whitespace-only test. -/
theorem lineStartTest_append_colon (a w : String) :
    lineStartTest (a ++ ":" ++ w) = false := by
  have hcolon : (":" : String).data = [':'] := rfl
  have hc : isJsWs ':' = false := by decide
  unfold lineStartTest
  rw [String.data_append, String.data_append, hcolon]
  simp [List.all_append, hc]

/-- A whitespace-only prefix fails the `/:\s*$/` test. -/
theorem afterColonTest_of_ws (s : String) (hs : lineStartTest s = true) :
    afterColonTest s = false := by
  have hall : s.data.reverse.all isJsWs = true := by
    rw [List.all_reverse]
    exact hs
  unfold afterColonTest
  rw [dropWhile_all_nil hall]
  rfl

/-- A whitespace-only prefix fails the `/:\s*\w*$/` test. -/
theorem typePositionTest_of_ws (s : String) (hs : lineStartTest s = true) :
    typePositionTest s = false := by
  have hall : s.data.reverse.all isJsWs = true := by
    rw [List.all_reverse]
    exact hs
  have hws : (s.data.reverse.dropWhile isWordChar).all isJsWs = true :=
    List.all_eq_true.mpr fun x hx =>
      List.all_eq_true.mp hall x ((List.dropWhile_sublist isWordChar).subset hx)
  unfold typePositionTest
  rw [dropWhile_all_nil hws]
  rfl

/-! ### Claim theorems -/

/-- C1 (code bug): the claim states that a completion request whose line index
is at least the document's line count fails with `InvalidPosition` and yields
an empty-but-valid result instead of an unhandled fault.  The code instead
reads `text.split('\n')[position.line]`, which is `undefined` for such a line
index, and calls `.substring` on it, raising an unhandled `TypeError`
(modelled by `onCompletion` returning `none`).  Evaluated here on a tracked
one-line document and a request at line 1: the handler crashes (`none`) and
in particular does not return the empty candidate list. -/
theorem c1_out_of_range_line_crashes :
    (jsSplitLines "model x:").length = 1 ∧
    onCompletion [("file:///a.pseudo", "model x:")] "file:///a.pseudo" ⟨1, 0⟩ = none ∧
    ¬ onCompletion [("file:///a.pseudo", "model x:")] "file:///a.pseudo" ⟨1, 0⟩ = some [] := by
  decide

/-- C3: `validate` on `model User Profile:` emits exactly one Warning whose
range covers exactly the substring `User Profile` (characters 6 to 18 of line
0) and whose message names the keyword `model`; on `model "User Profile":` it
emits nothing; on `page Sign Up:` exactly one Warning naming `page`; on
`page "Sign Up":` nothing. -/
theorem c3_validate_examples :
    validateTextDocument "model User Profile:" =
      [{ severity := DiagnosticSeverity.Warning
         range := { start := { line := 0, character := 6 }
                    stop := { line := 0, character := 18 } }
         message := "Multi-word model names should be quoted: \"User Profile\""
         source := "pseudo-lang" }] ∧
    ("model User Profile:".data.drop 6).take 12 = "User Profile".data ∧
    validateTextDocument "model \"User Profile\":" = [] ∧
    validateTextDocument "page Sign Up:" =
      [{ severity := DiagnosticSeverity.Warning
         range := { start := { line := 0, character := 5 }
                    stop := { line := 0, character := 12 } }
         message := "Multi-word page names should be quoted: \"Sign Up\""
         source := "pseudo-lang" }] ∧
    validateTextDocument "page \"Sign Up\":" = [] := by
  decide

/-- C5: the candidate set is the union, in source order (LineStart,
AfterColon, TypePosition, Always), of the contributions of all matching
rules, with no rule suppressing another; and for every prefix ending with a
colon followed only by whitespace both the AfterColon and the TypePosition
rules fire, so the result is every properties and actions keyword followed by
every types keyword and the modifiers. -/
theorem c5_union_no_suppression (a w : String) (hw : w.data.all isJsWs = true) :
    (∀ s : String, completionsFor s =
        (if lineStartTest s then KEYWORDS.declarations.map declCandidate else []) ++
        (if afterColonTest s then
            KEYWORDS.properties.map propertyCandidate ++ KEYWORDS.actions.map actionCandidate
          else []) ++
        (if typePositionTest s then KEYWORDS.types.map typeCandidate else []) ++
        KEYWORDS.modifiers.map modifierCandidate) ∧
    afterColonTest (a ++ ":" ++ w) = true ∧
    typePositionTest (a ++ ":" ++ w) = true ∧
    lineStartTest (a ++ ":" ++ w) = false ∧
    completionsFor (a ++ ":" ++ w) =
      KEYWORDS.properties.map propertyCandidate ++ KEYWORDS.actions.map actionCandidate ++
        KEYWORDS.types.map typeCandidate ++ KEYWORDS.modifiers.map modifierCandidate := by
  refine ⟨fun s => rfl, afterColonTest_append_ws a w hw, typePositionTest_append_ws a w hw,
    lineStartTest_append_colon a w, ?_⟩
  unfold completionsFor
  rw [afterColonTest_append_ws a w hw, typePositionTest_append_ws a w hw,
    lineStartTest_append_colon a w]
  simp

/-- Witness for C5 at the concrete prefix `":"` (`a` and `w` empty). -/
theorem c5_union_no_suppression_witness :
    ("" : String).data.all isJsWs = true ∧ afterColonTest ("" ++ ":" ++ "") = true :=
  ⟨by decide, (c5_union_no_suppression "" "" (by decide)).2.1⟩

/-- C6: on an empty or whitespace-only prefix the result is exactly the
declaration candidates followed by the modifier candidates; every
declarations keyword is present, with the snippet template insert text, and
the `app` candidate uses the `ProjectName` placeholder while every other
declaration uses the `Name` placeholder. -/
theorem c6_line_start_declarations (s : String) (hs : lineStartTest s = true) :
    completionsFor s =
      KEYWORDS.declarations.map declCandidate ++ KEYWORDS.modifiers.map modifierCandidate ∧
    (∀ kw ∈ KEYWORDS.declarations, declCandidate kw ∈ completionsFor s) ∧
    (declCandidate "app").insertText = some "app \"$\x7b1:ProjectName\x7d\":" ∧
    (∀ kw, ¬ kw = "app" →
      (declCandidate kw).insertText = some (kw ++ " \"$\x7b1:Name\x7d\":")) ∧
    ∀ kw, (declCandidate kw).insertTextFormat = some 2 := by
  have heq : completionsFor s =
      KEYWORDS.declarations.map declCandidate ++ KEYWORDS.modifiers.map modifierCandidate := by
    unfold completionsFor
    rw [hs, afterColonTest_of_ws s hs, typePositionTest_of_ws s hs]
    simp
  refine ⟨heq, ?_, by decide, ?_, fun kw => rfl⟩
  · intro kw hkw
    rw [heq]
    exact List.mem_append_left _ (List.mem_map_of_mem _ hkw)
  · intro kw hkw
    simp [declCandidate, hkw]

/-- Witness for C6 at the concrete whitespace prefix. -/
theorem c6_line_start_declarations_witness :
    lineStartTest "  " = true ∧
    completionsFor "  " =
      KEYWORDS.declarations.map declCandidate ++ KEYWORDS.modifiers.map modifierCandidate :=
  ⟨by decide, (c6_line_start_declarations "  " (by decide)).1⟩

/-- C7: for every tracked document and every in-range position, whatever the
prefix, the completion result exists (no failure) and contains a candidate
for every modifiers keyword. -/
theorem c7_modifiers_always (docs : List (String × String)) (uri : String) (pos : Position)
    (text : String) (hdoc : lookupDoc docs uri = some text)
    (hline : pos.line < (jsSplitLines text).length) :
    ∃ res, onCompletion docs uri pos = some res ∧
      ∀ m ∈ KEYWORDS.modifiers, modifierCandidate m ∈ res := by
  refine ⟨completionsFor
      (String.mk (((jsSplitLines text)[pos.line]).data.take pos.character)), ?_, ?_⟩
  · unfold onCompletion
    simp only [hdoc, List.getElem?_eq_getElem hline]
  · intro m hm
    unfold completionsFor
    exact List.mem_append_right _ (List.mem_map_of_mem _ hm)

/-- Witness for C7 on a concrete one-line document. -/
theorem c7_modifiers_always_witness :
    lookupDoc [("file:///d.pseudo", "model")] "file:///d.pseudo" = some "model" ∧
    0 < (jsSplitLines "model").length ∧
    ∃ res, onCompletion [("file:///d.pseudo", "model")] "file:///d.pseudo" ⟨0, 0⟩ = some res ∧
      ∀ m ∈ KEYWORDS.modifiers, modifierCandidate m ∈ res :=
  ⟨by decide, by decide,
    c7_modifiers_always [("file:///d.pseudo", "model")] "file:///d.pseudo" ⟨0, 0⟩ "model"
      (by decide) (by decide)⟩

/-- C8: a completion request for an untracked uri returns the empty candidate
list (an empty-but-valid result), never an unhandled failure. -/
theorem c8_unknown_document_empty (docs : List (String × String)) (uri : String)
    (pos : Position) (h : lookupDoc docs uri = none) :
    onCompletion docs uri pos = some [] := by
  unfold onCompletion
  rw [h]

/-- Witness for C8 on the empty document store. -/
theorem c8_unknown_document_empty_witness :
    lookupDoc [] "file:///missing.pseudo" = none ∧
    onCompletion [] "file:///missing.pseudo" ⟨0, 0⟩ = some [] :=
  ⟨by decide, c8_unknown_document_empty [] "file:///missing.pseudo" ⟨0, 0⟩ (by decide)⟩

/-- C9: `resolve` is total, performs no lookups, and returns the item with
label, kind, detail, insertText and insertTextFormat unchanged, adding
documentation text exactly when the item has the keyword kind. -/
theorem c9_resolve_frame (item : CompletionItem) :
    (onCompletionResolve item).label = item.label ∧
    (onCompletionResolve item).kind = item.kind ∧
    (onCompletionResolve item).detail = item.detail ∧
    (onCompletionResolve item).insertText = item.insertText ∧
    (onCompletionResolve item).insertTextFormat = item.insertTextFormat ∧
    (onCompletionResolve item).documentation =
      (if item.kind = CompletionItemKind.Keyword
        then some (item.label ++ " - A pseudolang keyword")
        else item.documentation) := by
  unfold onCompletionResolve
  by_cases h : item.kind = CompletionItemKind.Keyword
  · simp [h]
  · simp [h]

/-- C10: a position whose line is in range but whose character offset exceeds
the line length does not fail and is not reported as invalid: the prefix is
clamped to the whole line and classification proceeds on it. -/
theorem c10_character_clamped (docs : List (String × String)) (uri : String)
    (pos : Position) (text lineText : String) (hdoc : lookupDoc docs uri = some text)
    (hline : (jsSplitLines text)[pos.line]? = some lineText)
    (hchar : lineText.length ≤ pos.character) :
    onCompletion docs uri pos = some (completionsFor lineText) := by
  unfold onCompletion
  simp only [hdoc, hline]
  rw [List.take_of_length_le hchar]

/-- Witness for C10: a two-character line read with character offset 5. -/
theorem c10_character_clamped_witness :
    lookupDoc [("file:///c.pseudo", "ab")] "file:///c.pseudo" = some "ab" ∧
    (jsSplitLines "ab")[(0 : Nat)]? = some "ab" ∧
    ("ab" : String).length ≤ 5 ∧
    onCompletion [("file:///c.pseudo", "ab")] "file:///c.pseudo" ⟨0, 5⟩ =
      some (completionsFor "ab") :=
  ⟨by decide, by decide, by decide,
    c10_character_clamped [("file:///c.pseudo", "ab")] "file:///c.pseudo" ⟨0, 5⟩ "ab" "ab"
      (by decide) (by decide) (by decide)⟩

/-- C2 counterexample: the claim fails on the code in two ways.  First, on
the line `model ab :` the captured name is `ab ` (with a trailing space): it
contains no internal space, yet the scanner emits a warning, because the code
tests `name.includes(' ')` (any space).  Second, on the line `guard d d:` the
captured name `d d` starts at character 6 (the line decomposes as
`guard ` ++ `d d` ++ `:`), but the emitted range starts at character 4,
because the code locates the name with `line.indexOf(name)` which finds the
earlier occurrence of the string `d d` inside `guard d`. -/
theorem c2_counterexample :
    matchDecl "model ab :" = some ("model", "ab ") ∧
    specInternalSpace "ab " = false ∧
    (validateTextDocument "model ab :").length = 1 ∧
    matchDecl "guard d d:" = some ("guard", "d d") ∧
    (validateTextDocument "guard d d:").map (fun d => d.range.start.character) = [4] ∧
    "guard d d:" = "guard " ++ ("d d" ++ ":") ∧
    ("guard " : String).length = 6 ∧
    ¬ (4 : Int) = 6 := by
  decide

/-- A successful post-keyword match returns the given keyword, and its
captured name occurs somewhere in the matched remainder. -/
theorem matchAfterKw_some (kw : String) (rest2 : List Char) (kw' name : String)
    (h : matchAfterKw kw rest2 = some (kw', name)) :
    kw' = kw ∧ ∃ j, name.data.isPrefixOf (rest2.drop j) = true := by
  simp only [matchAfterKw] at h
  set ws2 := rest2.takeWhile isJsWs with hws2
  set rest3 := rest2.dropWhile isJsWs with hrest3
  have hsplit : rest2 = ws2 ++ rest3 := (List.takeWhile_append_dropWhile isJsWs rest2).symm
  split at h
  · exact absurd h (by simp)
  · split at h
    · rename_i after hafter
      split at h
      · split at h
        · rename_i hpre
          split at h
          · rename_i c x xs hrev
            have hinj := Option.some.inj h
            have hkw : kw = kw' := congrArg Prod.fst hinj
            have hname : String.mk [c] = name := congrArg Prod.snd hinj
            refine ⟨hkw.symm, (x :: xs).reverse.length, ?_⟩
            have hws2eq : ws2 = (x :: xs).reverse ++ [c] := by
              have := congrArg List.reverse hrev
              simpa using this
            rw [hsplit, hws2eq, List.append_assoc, List.drop_left]
            rw [← hname]
            simp [List.isPrefixOf]
          · exact absurd h (by simp)
        · rename_i hpre
          have hinj := Option.some.inj h
          have hkw : kw = kw' := congrArg Prod.fst hinj
          have hname : String.mk (rest3.takeWhile (fun c => c ≠ ':')) = name :=
            congrArg Prod.snd hinj
          refine ⟨hkw.symm, ws2.length, ?_⟩
          have hdrop : rest2.drop ws2.length = rest3 := by
            rw [hsplit]
            exact List.drop_left ws2 rest3
          rw [hdrop, ← hname]
          exact List.isPrefixOf_iff_prefix.mpr (List.takeWhile_prefix _)
      · exact absurd h (by simp)
    · exact absurd h (by simp)

/-- A successful declaration-header match's captured name occurs somewhere in
the line. -/
theorem matchDecl_name_occurs (line : String) (kw name : String)
    (h : matchDecl line = some (kw, name)) :
    ∃ k, name.data.isPrefixOf (line.data.drop k) = true := by
  simp only [matchDecl, matchDeclAux] at h
  cases hf : declKeywords.find?
      (fun kw0 => kw0.data.isPrefixOf (line.data.dropWhile isJsWs)) with
  | none => rw [hf] at h; exact absurd h (by simp)
  | some kw0 =>
    rw [hf] at h
    obtain ⟨hkw, j, hj⟩ := matchAfterKw_some kw0 _ kw name h
    have hpre := List.find?_some hf
    obtain ⟨t, ht⟩ := List.isPrefixOf_iff_prefix.mp hpre
    have hrest2 : (line.data.dropWhile isJsWs).drop kw0.data.length = t := by
      rw [← ht]
      exact List.drop_left kw0.data t
    rw [hrest2] at hj
    set ws1 := line.data.takeWhile isJsWs with hws1
    have hline : line.data = ws1 ++ (kw0.data ++ t) := by
      rw [ht]
      exact (List.takeWhile_append_dropWhile isJsWs line.data).symm
    refine ⟨ws1.length + (kw0.data.length + j), ?_⟩
    have hdrop : line.data.drop (ws1.length + (kw0.data.length + j)) = t.drop j := by
      rw [hline, drop_append_left, drop_append_left]
    rw [hdrop]
    exact hj

/-- C2 (amended): for every line matching the declaration-header pattern, the
scanner emits a Warning if and only if the captured name contains a space
character anywhere and does not begin with a quote; every emitted
diagnostic's range lies on that line and spans the first occurrence of the
name substring within the line, and its message names the keyword and the
name. -/
theorem c2_scanner_warning (line : String) (n : Nat) (kw name : String)
    (h : matchDecl line = some (kw, name)) :
    ((¬ diagnosticsForLine n line = []) ↔
      (name.data.contains ' ' = true ∧ jsStartsWith name "\"" = false)) ∧
    ∀ d ∈ diagnosticsForLine n line,
      d.severity = DiagnosticSeverity.Warning ∧
      d.source = "pseudo-lang" ∧
      d.message = "Multi-word " ++ kw ++ " names should be quoted: \"" ++ name ++ "\"" ∧
      d.range.start.line = n ∧
      d.range.stop.line = n ∧
      ∃ k : Nat, d.range.start.character = Int.ofNat k ∧
        d.range.stop.character = Int.ofNat k + Int.ofNat name.length ∧
        name.data.isPrefixOf (line.data.drop k) = true ∧
        ∀ j, j < k → name.data.isPrefixOf (line.data.drop j) = false := by
  obtain ⟨k0, hk0⟩ := matchDecl_name_occurs line kw name h
  obtain ⟨jj, hjj⟩ := firstOccur_of_occurs line.data name.data k0 hk0
  have hfo := firstOccur_some line.data name.data jj hjj
  have hidx : jsIndexOf line name = Int.ofNat jj := by
    unfold jsIndexOf
    rw [hjj]
  simp only [diagnosticsForLine, h]
  by_cases hcond : (name.data.contains ' ' && !(jsStartsWith name "\"")) = true
  · rw [if_pos hcond]
    simp only [Bool.and_eq_true, Bool.not_eq_true'] at hcond
    refine ⟨⟨fun _ => hcond, fun _ => by simp⟩, ?_⟩
    intro d hd
    have hd' : d = _ := List.mem_singleton.mp hd
    subst hd'
    exact ⟨rfl, rfl, rfl, rfl, rfl, jj, hidx, by rw [hidx], hfo.1, hfo.2⟩
  · rw [if_neg hcond]
    refine ⟨⟨fun hne => absurd rfl hne, fun hc => ?_⟩, ?_⟩
    · exact absurd (by rw [hc.1, hc.2]; rfl) hcond
    · intro d hd
      exact absurd hd (by simp)

/-- Witness for C2 on the line `model a b:`, whose captured name `a b`
contains a space and is unquoted, so a warning is emitted. -/
theorem c2_scanner_warning_witness :
    matchDecl "model a b:" = some ("model", "a b") ∧
    ¬ diagnosticsForLine 0 "model a b:" = [] :=
  ⟨by decide,
    ((c2_scanner_warning "model a b:" 0 "model" "a b" (by decide)).1).mpr (by decide)⟩

/-- The completion list as a function of the three boolean context tests:
used to settle per-category counting by exhausting the eight test outcomes. -/
def completionsOfFlags (b1 b2 b3 : Bool) : List CompletionItem :=
  (if b1 then KEYWORDS.declarations.map declCandidate else []) ++
  (if b2 then
      KEYWORDS.properties.map propertyCandidate ++ KEYWORDS.actions.map actionCandidate
    else []) ++
  (if b3 then KEYWORDS.types.map typeCandidate else []) ++
  KEYWORDS.modifiers.map modifierCandidate

/-- `completionsFor` is `completionsOfFlags` applied to the three tests. -/
theorem completionsFor_eq_flags (s : String) :
    completionsFor s =
      completionsOfFlags (lineStartTest s) (afterColonTest s) (typePositionTest s) := rfl

/-- Each matched category contributes exactly one candidate per keyword,
whatever the other flags are. -/
theorem completionsOfFlags_count (b1 b2 b3 : Bool) :
    (b1 = true → ∀ kw ∈ KEYWORDS.declarations,
      (completionsOfFlags b1 b2 b3).count (declCandidate kw) = 1) ∧
    (b2 = true → ∀ kw ∈ KEYWORDS.properties,
      (completionsOfFlags b1 b2 b3).count (propertyCandidate kw) = 1) ∧
    (b2 = true → ∀ kw ∈ KEYWORDS.actions,
      (completionsOfFlags b1 b2 b3).count (actionCandidate kw) = 1) ∧
    (b3 = true → ∀ kw ∈ KEYWORDS.types,
      (completionsOfFlags b1 b2 b3).count (typeCandidate kw) = 1) ∧
    (∀ kw ∈ KEYWORDS.modifiers,
      (completionsOfFlags b1 b2 b3).count (modifierCandidate kw) = 1) := by
  cases b1 <;> cases b2 <;> cases b3 <;> decide

/-- C4: for every prefix, each category matched by the classification rules
contributes exactly one candidate per keyword of that category, and the
insert text follows the template rule: declaration candidates carry the
quoted-name snippet template with a placeholder (`ProjectName` for `app`,
`Name` otherwise, in snippet format), while property, action, type and
modifier candidates carry no explicit insert text, so the inserted text is
the bare keyword itself. -/
theorem c4_candidates_per_category (s : String) :
    (lineStartTest s = true → ∀ kw ∈ KEYWORDS.declarations,
      (completionsFor s).count (declCandidate kw) = 1) ∧
    (afterColonTest s = true → ∀ kw ∈ KEYWORDS.properties,
      (completionsFor s).count (propertyCandidate kw) = 1) ∧
    (afterColonTest s = true → ∀ kw ∈ KEYWORDS.actions,
      (completionsFor s).count (actionCandidate kw) = 1) ∧
    (typePositionTest s = true → ∀ kw ∈ KEYWORDS.types,
      (completionsFor s).count (typeCandidate kw) = 1) ∧
    (∀ kw ∈ KEYWORDS.modifiers,
      (completionsFor s).count (modifierCandidate kw) = 1) ∧
    (declCandidate "app").insertText = some "app \"$\x7b1:ProjectName\x7d\":" ∧
    (∀ kw, ¬ kw = "app" →
      (declCandidate kw).insertText = some (kw ++ " \"$\x7b1:Name\x7d\":")) ∧
    (∀ kw, (declCandidate kw).insertTextFormat = some 2) ∧
    (∀ kw, insertedText (propertyCandidate kw) = kw ∧ (propertyCandidate kw).insertText = none) ∧
    (∀ kw, insertedText (actionCandidate kw) = kw ∧ (actionCandidate kw).insertText = none) ∧
    (∀ kw, insertedText (typeCandidate kw) = kw ∧ (typeCandidate kw).insertText = none) ∧
    (∀ kw, insertedText (modifierCandidate kw) = kw ∧
      (modifierCandidate kw).insertText = none) := by
  have hc := completionsOfFlags_count (lineStartTest s) (afterColonTest s) (typePositionTest s)
  rw [← completionsFor_eq_flags s] at hc
  refine ⟨hc.1, hc.2.1, hc.2.2.1, hc.2.2.2.1, hc.2.2.2.2, by decide, ?_,
    fun kw => rfl, fun kw => ⟨rfl, rfl⟩, fun kw => ⟨rfl, rfl⟩, fun kw => ⟨rfl, rfl⟩,
    fun kw => ⟨rfl, rfl⟩⟩
  intro kw hkw
  simp [declCandidate, hkw]

/-- Witness for C4 at the empty prefix: the LineStart rule fires and `model`
appears exactly once. -/
theorem c4_candidates_per_category_witness :
    lineStartTest "" = true ∧ "model" ∈ KEYWORDS.declarations ∧
    (completionsFor "").count (declCandidate "model") = 1 :=
  ⟨by decide, by decide, (c4_candidates_per_category "").1 (by decide) "model" (by decide)⟩

end Pseudo
